import Mathlib

/-!
Bounty-hit evaluation of the poker skeleton (`skeleton/util.h`)

A shallow embedding of `get_bounty_hits` from
`cpp_skeleton/libs/skeleton/include/skeleton/util.h`, together with the
properties of it that the specification states.

Conventions of the embedding:

* `std::map<std::string, int>` is an association list; `operator[]` is
  `RankMap.index`, which returns the stored value and, on a miss, inserts the
  key with the value-initialised `int` (that is `0`) and returns `0`.  The map
  is threaded through the three loops as explicit state.  A new key is put at
  the end of the list; `std::map` keeps its keys sorted, which no lookup
  observes.
* `std::vector<int>` is `List Int`; `push_back` appends at the end.
* An indexing expression `a[i]` that is out of range has no defined result in
  C++; the embedding returns `none` there, so `get_bounty_hits` has type
  `RoundState → Option (Bool × Bool)`.
* `int` counters are `Int`; the loop `for (int i = 0; i < street; i++)` runs
  over the indices `0, 1, ..., street - 1` and not at all when `street ≤ 0`.
-/

namespace Pokerbots

/-- The association list standing for `std::map<std::string, int>`. -/
abbrev RankMap := List (String × Int)

/-- The initialiser of `ranks` in `get_bounty_hits` (util.h, lines 42-44). -/
def ranks : RankMap :=
  [("2", 0), ("3", 1), ("4", 2), ("5", 3), ("6", 4), ("7", 5), ("8", 6),
   ("9", 7), ("T", 8), ("J", 9), ("Q", 10), ("K", 11), ("A", 12)]

/-- The expression `m[k]` of `std::map`: the stored value when `k` is a key,
otherwise `k` is inserted with value `0` and `0` is returned.  The result is the
value read together with the map afterwards. -/
def RankMap.index (m : RankMap) (k : String) : Int × RankMap :=
  match m.lookup k with
  | some v => (v, m)
  | none => (0, m ++ [(k, 0)])

/-- Modelled from the spec: the declaration of `RoundState` is not part of the
source fragment.  The fields follow section 3 of the specification: `hands` is
an ordered pair of card sequences, `deck` the community board in reveal order,
`street` the number of revealed community cards, `bounties` an ordered pair
holding one rank symbol (a single character) per player.  Cards are strings,
since they are used as keys of `std::map<std::string, int>`.  `pot` and
`chips` stand for the pot and stack bookkeeping carried alongside, which `get_bounty_hits`
does not read. -/
structure RoundState where
  street : Int
  pot : Int
  chips : Int × Int
  hands : List String × List String
  bounties : Char × Char
  deck : List String
deriving DecidableEq, Repr

/-- The value a bounty symbol has in the comparison `int == symbol` performed
by `std::find` over a `std::vector<int>`: the symbol is promoted to `int`, that
is to its character code. -/
def symbolCode (c : Char) : Int := (c.toNat : Int)

/-- The loops `for (int i = 0; i < 2; i++) cards.push_back(ranks[hand[i]]);`
(util.h, lines 47-50), over the list of indices still to visit.  The state is
the map and the vector. -/
def pushHand (hand : List String) :
    List Nat → RankMap × List Int → Option (RankMap × List Int)
  | [], st => some st
  | i :: rest, (m, cards) =>
    match hand[i]? with
    | none => none
    | some c =>
      let r := m.index c
      pushHand hand rest (r.2, cards ++ [r.1])

/-- The loop over the revealed community cards (util.h, lines 51-55): each
iteration indexes the map twice, once per `push_back`. -/
def pushDeck (deck : List String) :
    List Nat → RankMap × List Int × List Int → Option (RankMap × List Int × List Int)
  | [], st => some st
  | i :: rest, (m, cards0, cards1) =>
    match deck[i]? with
    | none => none
    | some c =>
      let r0 := m.index c
      let r1 := r0.2.index c
      pushDeck deck rest (r1.2, cards0 ++ [r0.1], cards1 ++ [r1.1])

/-- The test `std::find(cards.begin(), cards.end(), v) != cards.end()`. -/
def findNotEnd (cards : List Int) (v : Int) : Bool :=
  cards.any (fun x => x == v)

/-- Everything `get_bounty_hits` computes before the final comparison: the
map `ranks` after all lookups, and the vectors `cards0` and `cards1`. -/
def collectRanks (state : RoundState) : Option (RankMap × List Int × List Int) :=
  match pushHand state.hands.1 (List.range 2) (ranks, []) with
  | none => none
  | some (m0, cards0) =>
    match pushHand state.hands.2 (List.range 2) (m0, []) with
    | none => none
    | some (m1, cards1) =>
      pushDeck state.deck (List.range state.street.toNat) (m1, cards0, cards1)

/-- The function `get_bounty_hits` of util.h (lines 27-61). -/
def get_bounty_hits (state : RoundState) : Option (Bool × Bool) :=
  match collectRanks state with
  | none => none
  | some (_, cards0, cards1) =>
    some (findNotEnd cards0 (symbolCode state.bounties.1),
          findNotEnd cards1 (symbolCode state.bounties.2))

/-- The rank a symbol has in the table of the source, read without changing
the table: the stored value for a key, `0` for any other string. -/
def rankOf (s : String) : Int := (RankMap.index ranks s).1

/-- The 13 rank symbols, the keys of `ranks` in the order of the table. -/
def alphabet : List String := ranks.map Prod.fst

/-- The community cards revealed so far: the first `street` entries of
`deck`. -/
def revealed (state : RoundState) : List String :=
  state.deck.take state.street.toNat

/-- Every indexing expression of `get_bounty_hits` is in range:
`hands[p][0]`, `hands[p][1]` and `deck[i]` for `i < street`. -/
def InRange (state : RoundState) : Prop :=
  2 ≤ state.hands.1.length ∧ 2 ≤ state.hands.2.length ∧
    state.street.toNat ≤ state.deck.length

instance (state : RoundState) : Decidable (InRange state) := by
  unfold InRange; infer_instance

/-- The ranks pushed for one player: those of the two hole cards, then those
of the revealed community cards. -/
def cardsOf (hand : List String) (state : RoundState) : List Int :=
  (hand.take 2 ++ revealed state).map rankOf

/-- A bounty symbol as a string, the form in which it would be a key of the
rank table. -/
def bountySymbol (c : Char) : String := String.singleton c

/-- The data-model invariants of section 3 of the specification: two hole
cards per player, `0 ≤ street ≤ min(5, len(deck))`, every card and every bounty
symbol in the alphabet. -/
def Valid (state : RoundState) : Prop :=
  state.hands.1.length = 2 ∧ state.hands.2.length = 2 ∧
  0 ≤ state.street ∧ state.street ≤ min 5 (state.deck.length : Int) ∧
  (∀ c ∈ state.hands.1, c ∈ alphabet) ∧ (∀ c ∈ state.hands.2, c ∈ alphabet) ∧
  (∀ c ∈ state.deck, c ∈ alphabet) ∧
  bountySymbol state.bounties.1 ∈ alphabet ∧ bountySymbol state.bounties.2 ∈ alphabet

instance (state : RoundState) : Decidable (Valid state) := by
  unfold Valid; infer_instance

/-- The visible rank set of a player as section 4.2 of the specification
words it: the ranks of the player's hole cards together with the ranks of
`deck[i]` for `i < street`. -/
def visibleRanks (hand : List String) (state : RoundState) : List Int :=
  hand.map rankOf ++ (revealed state).map rankOf

/-- The operation `evaluateBountyHits` as section 4.2 of the specification
words it: player `p` is hit iff `rankOf(bounties[p])` is a member of the
player's visible rank set. -/
def evaluateBountyHits (state : RoundState) : Bool × Bool :=
  (decide (rankOf (bountySymbol state.bounties.1) ∈ visibleRanks state.hands.1 state),
   decide (rankOf (bountySymbol state.bounties.2) ∈ visibleRanks state.hands.2 state))

/-- A valid round state on the flop in which both bounty ranks are visible:
player 0 holds a king, and a nine is on the board. -/
def flopState : RoundState :=
  { street := 3, pot := 0, chips := (0, 0),
    hands := (["A", "K"], ["Q", "J"]), bounties := ('K', '9'),
    deck := ["9", "5", "5", "2", "7"] }

/-- A round state whose first bounty symbol, `X`, is outside the alphabet. -/
def strayBountyState : RoundState :=
  { street := 0, pot := 0, chips := (0, 0),
    hands := (["A", "2"], ["K", "Q"]), bounties := ('X', 'K'), deck := [] }

/-- A round state with a hole card `X` and a revealed community card `Z`, both
outside the alphabet. -/
def strayCardState : RoundState :=
  { street := 1, pot := 0, chips := (0, 0),
    hands := (["X", "3"], ["4", "5"]), bounties := ('A', 'K'),
    deck := ["Z", "6", "7", "8", "9"] }

/-- A round state in which the comparison of line 57 succeeds: the bounty
symbols are the characters with codes 8 and 9, the ranks of `T` and `J`. -/
def codeHitState : RoundState :=
  { street := 1, pot := 0, chips := (0, 0),
    hands := (["2", "3"], ["4", "5"]), bounties := (Char.ofNat 8, Char.ofNat 9),
    deck := ["T", "J", "9", "6", "6"] }

/-- A round state with `street = -1`. -/
def negativeStreetState : RoundState :=
  { street := -1, pot := 0, chips := (0, 0),
    hands := (["A", "2"], ["K", "Q"]), bounties := ('A', 'K'),
    deck := ["9", "5", "5", "2", "7"] }

/-- A round state with `street = 6` over a deck of six cards. -/
def sixthStreetState : RoundState :=
  { street := 6, pot := 0, chips := (0, 0),
    hands := (["A", "2"], ["K", "Q"]), bounties := ('A', 'K'),
    deck := ["9", "5", "5", "2", "7", "3"] }

/-- Scenario 1 of the specification over a given deck. -/
def scenario1 (deck : List String) : RoundState :=
  { street := 0, pot := 0, chips := (0, 0),
    hands := (["A", "2"], ["K", "Q"]), bounties := ('A', 'K'), deck := deck }

/-- Scenario 2 of the specification: both bounty ranks are among the three
revealed community cards. -/
def scenario2 : RoundState :=
  { street := 3, pot := 0, chips := (0, 0),
    hands := (["2", "3"], ["4", "5"]), bounties := ('T', 'J'),
    deck := ["T", "J", "9", "6", "6"] }

/-- Scenario 3 of the specification: each player holds the bounty rank
twice. -/
def scenario3 : RoundState :=
  { street := 0, pot := 0, chips := (0, 0),
    hands := (["2", "2"], ["3", "3"]), bounties := ('2', '3'), deck := [] }

/-- Scenario 4 of the specification, over a deck without an ace. -/
def scenario4 : RoundState :=
  { street := 5, pot := 0, chips := (0, 0),
    hands := (["7", "8"], ["9", "T"]), bounties := ('A', 'A'),
    deck := ["2", "3", "4", "5", "6"] }

/-- A valid preflop state: player 0 holds the bounty rank `Q`, player 1 does
not hold the bounty rank `2`, and the unrevealed deck holds both. -/
def preflopState : RoundState :=
  { street := 0, pot := 0, chips := (0, 0),
    hands := (["Q", "7"], ["8", "8"]), bounties := ('Q', '2'),
    deck := ["Q", "2", "2", "3", "4"] }

/-- The algorithm `std::all_of(first, last, pred)` over the elements of the
range: false at the first element that fails `pred`, true when none does. -/
def all_of {α : Type} (pred : α → Bool) : List α → Bool
  | [] => true
  | x :: rest => if pred x then all_of pred rest else false

/-- The function `isEmpty` of util.h (lines 11-13): a container of containers,
here a list of lists, tested with `v.empty()` on every element. -/
def isEmpty {α : Type} (c : List (List α)) : Bool :=
  all_of (fun v => v.isEmpty) c

/-- The loop of `join` (util.h, lines 18-22) over the elements from `it` to
`end`: `pos` is the distance of `it` from `begin`, so `it != begin` is
`pos ≠ 0`, and `oss` is what the stream holds so far. -/
def joinLoop (separator : String) : Nat → List String → String → String
  | _, [], oss => oss
  | pos, x :: rest, oss =>
    joinLoop separator (pos + 1) rest ((if pos ≠ 0 then oss ++ separator else oss) ++ x)

/-- The function `join` of util.h (lines 15-24) over the range holding the
elements `xs`. -/
def join (xs : List String) (separator : String) : String :=
  joinLoop separator 0 xs ""

/-- The text the claim about `join` describes: the elements in order with the
separator between each adjacent pair and nowhere else. -/
def separated (sep : String) : List String → String
  | [] => ""
  | [x] => x
  | x :: y :: rest => x ++ sep ++ separated sep (y :: rest)

/-- The cards read by a loop that visits the indices `idxs` of `l`, in the
order of the visits; `none` when one of the indices is out of range. -/
def readAll (l : List String) : List Nat → Option (List String)
  | [] => some []
  | i :: rest =>
    match l[i]? with
    | none => none
    | some c =>
      match readAll l rest with
      | none => none
      | some cs => some (c :: cs)

/-- A map read like the table of the source: every lookup through
`operator[]` yields the value the initial table yields. -/
def Agrees (m : RankMap) : Prop := ∀ k, (m.index k).1 = rankOf k

theorem agrees_ranks : Agrees ranks := fun _ => rfl

theorem index_of_lookup_some {m : RankMap} {k : String} {v : Int}
    (h : m.lookup k = some v) : m.index k = (v, m) := by
  simp [RankMap.index, h]

theorem index_of_lookup_none {m : RankMap} {k : String}
    (h : m.lookup k = none) : m.index k = (0, m ++ [(k, 0)]) := by
  simp [RankMap.index, h]

theorem index_snd_of_isSome {m : RankMap} {k : String}
    (h : (m.lookup k).isSome) : (m.index k).2 = m := by
  obtain ⟨v, hv⟩ := Option.isSome_iff_exists.mp h
  rw [index_of_lookup_some hv]

theorem agrees_index {m : RankMap} (h : Agrees m) (k : String) :
    Agrees (m.index k).2 := by
  cases hk : m.lookup k with
  | some v => rw [index_of_lookup_some hk]; exact h
  | none =>
    rw [index_of_lookup_none hk]
    intro j
    have hj := h j
    have hk0 := h k
    rw [index_of_lookup_none hk] at hk0
    simp only [RankMap.index] at hj ⊢
    rw [List.lookup_append]
    cases hmj : m.lookup j with
    | some w => simpa [hmj] using hj
    | none =>
      rw [hmj] at hj
      simp only [Option.none_or]
      by_cases hjk : j = k
      · subst hjk; simpa using hk0
      · have : (j == k) = false := by simpa using hjk
        simpa [List.lookup_cons, this] using hj

theorem pushHand_spec (hand : List String) :
    ∀ (idxs : List Nat) (m : RankMap) (cards : List Int), Agrees m →
      match readAll hand idxs with
      | none => pushHand hand idxs (m, cards) = none
      | some cs =>
        ∃ m', pushHand hand idxs (m, cards) = some (m', cards ++ cs.map rankOf) ∧
          Agrees m' ∧ ((∀ c ∈ cs, (m.lookup c).isSome) → m' = m) := by
  intro idxs
  induction idxs with
  | nil =>
    intro m cards hm
    exact ⟨m, by simp [pushHand], hm, fun _ => rfl⟩
  | cons i rest ih =>
    intro m cards hm
    cases hi : hand[i]? with
    | none => simp [readAll, pushHand, hi]
    | some c =>
      have step := ih (m.index c).2 (cards ++ [(m.index c).1]) (agrees_index hm c)
      cases hr : readAll hand rest with
      | none =>
        rw [hr] at step
        simpa [readAll, pushHand, hi, hr] using step
      | some cs =>
        rw [hr] at step
        obtain ⟨m', hp, ha, hkeep⟩ := step
        simp only [readAll, hi, hr, pushHand]
        refine ⟨m', ?_, ha, ?_⟩
        · rw [hp, hm c]; simp
        · intro hall
          have hc : (m.lookup c).isSome := hall c (List.mem_cons_self _ _)
          have hmc : (m.index c).2 = m := index_snd_of_isSome hc
          rw [hmc] at hkeep
          exact hkeep (fun d hd => hall d (List.mem_cons_of_mem _ hd))

theorem pushDeck_spec (deck : List String) :
    ∀ (idxs : List Nat) (m : RankMap) (cards0 cards1 : List Int), Agrees m →
      match readAll deck idxs with
      | none => pushDeck deck idxs (m, cards0, cards1) = none
      | some cs =>
        ∃ m', pushDeck deck idxs (m, cards0, cards1)
            = some (m', cards0 ++ cs.map rankOf, cards1 ++ cs.map rankOf) ∧
          Agrees m' ∧ ((∀ c ∈ cs, (m.lookup c).isSome) → m' = m) := by
  intro idxs
  induction idxs with
  | nil =>
    intro m cards0 cards1 hm
    exact ⟨m, by simp [pushDeck], hm, fun _ => rfl⟩
  | cons i rest ih =>
    intro m cards0 cards1 hm
    cases hi : deck[i]? with
    | none => simp [readAll, pushDeck, hi]
    | some c =>
      have hm1 : Agrees (m.index c).2 := agrees_index hm c
      have hm2 : Agrees ((m.index c).2.index c).2 := agrees_index hm1 c
      have step := ih ((m.index c).2.index c).2 (cards0 ++ [(m.index c).1])
        (cards1 ++ [((m.index c).2.index c).1]) hm2
      cases hr : readAll deck rest with
      | none =>
        rw [hr] at step
        simpa [readAll, pushDeck, hi, hr] using step
      | some cs =>
        rw [hr] at step
        obtain ⟨m', hp, ha, hkeep⟩ := step
        simp only [readAll, hi, hr, pushDeck]
        refine ⟨m', ?_, ha, ?_⟩
        · rw [hp, hm c, hm1 c]; simp
        · intro hall
          have hc : (m.lookup c).isSome := hall c (List.mem_cons_self _ _)
          have hmc : (m.index c).2 = m := index_snd_of_isSome hc
          rw [hmc, hmc] at hkeep
          exact hkeep (fun d hd => hall d (List.mem_cons_of_mem _ hd))

theorem readAll_range' (l : List String) :
    ∀ (n s : Nat), s ≤ l.length → readAll l (List.range' s n) =
      if s + n ≤ l.length then some ((l.drop s).take n) else none := by
  intro n
  induction n with
  | zero => intro s hs; simp [readAll, hs]
  | succ n ih =>
    intro s hsl
    rw [List.range'_succ]
    by_cases hs : s < l.length
    · have hget : l[s]? = some l[s] := List.getElem?_eq_getElem hs
      have hd : l.drop s = l[s] :: l.drop (s + 1) := List.drop_eq_getElem_cons hs
      simp only [readAll, hget, ih (s + 1) hs]
      by_cases hb : s + 1 + n ≤ l.length
      · have hb2 : s + (n + 1) ≤ l.length := by omega
        rw [if_pos hb, if_pos hb2, hd, List.take_succ_cons]
      · have hb2 : ¬ s + (n + 1) ≤ l.length := by omega
        rw [if_neg hb, if_neg hb2]
    · have hget : l[s]? = none := List.getElem?_eq_none (by omega)
      have hb2 : ¬ s + (n + 1) ≤ l.length := by omega
      simp [readAll, hget, hb2]

theorem readAll_range (l : List String) (n : Nat) :
    readAll l (List.range n) = if n ≤ l.length then some (l.take n) else none := by
  rw [List.range_eq_range', readAll_range' l n 0 (Nat.zero_le _)]
  simp

theorem lookup_isSome_of_mem_alphabet {c : String} (h : c ∈ alphabet) :
    (ranks.lookup c).isSome := by
  simp only [alphabet, ranks, List.map_cons, List.map_nil, List.mem_cons,
    List.mem_singleton, List.not_mem_nil, or_false] at h
  rcases h with h | h | h | h | h | h | h | h | h | h | h | h | h <;>
    (subst h; decide)

theorem collectRanks_of_inRange {state : RoundState} (h : InRange state) :
    ∃ m, collectRanks state
        = some (m, cardsOf state.hands.1 state, cardsOf state.hands.2 state) ∧
      ((∀ c ∈ state.hands.1.take 2 ++ state.hands.2.take 2 ++ revealed state,
          c ∈ alphabet) → m = ranks) := by
  obtain ⟨h0, h1, hd⟩ := h
  have s0 := pushHand_spec state.hands.1 (List.range 2) ranks [] agrees_ranks
  rw [readAll_range, if_pos h0] at s0
  obtain ⟨m0, e0, a0, k0⟩ := s0
  have s1 := pushHand_spec state.hands.2 (List.range 2) m0 [] a0
  rw [readAll_range, if_pos h1] at s1
  obtain ⟨m1, e1, a1, k1⟩ := s1
  have s2 := pushDeck_spec state.deck (List.range state.street.toNat) m1
    ([] ++ (state.hands.1.take 2).map rankOf) ([] ++ (state.hands.2.take 2).map rankOf) a1
  rw [readAll_range, if_pos hd] at s2
  obtain ⟨m2, e2, _, k2⟩ := s2
  refine ⟨m2, ?_, ?_⟩
  · simp only [collectRanks, e0, e1, e2, cardsOf, revealed]
    simp
  · intro hall
    have hm0 : m0 = ranks := k0 (fun c hc =>
      lookup_isSome_of_mem_alphabet (hall c (by simp [hc])))
    subst hm0
    have hm1 : m1 = ranks := k1 (fun c hc =>
      lookup_isSome_of_mem_alphabet (hall c (by simp [hc])))
    subst hm1
    exact k2 (fun c hc =>
      lookup_isSome_of_mem_alphabet (hall c (by simp [revealed, hc])))

theorem collectRanks_of_not_inRange {state : RoundState} (h : ¬ InRange state) :
    collectRanks state = none := by
  have s0 := pushHand_spec state.hands.1 (List.range 2) ranks [] agrees_ranks
  rw [readAll_range] at s0
  by_cases h0 : 2 ≤ state.hands.1.length
  · rw [if_pos h0] at s0
    obtain ⟨m0, e0, a0, _⟩ := s0
    have s1 := pushHand_spec state.hands.2 (List.range 2) m0 [] a0
    rw [readAll_range] at s1
    by_cases h1 : 2 ≤ state.hands.2.length
    · rw [if_pos h1] at s1
      obtain ⟨m1, e1, a1, _⟩ := s1
      have hd : ¬ state.street.toNat ≤ state.deck.length := fun hd => h ⟨h0, h1, hd⟩
      have s2 := pushDeck_spec state.deck (List.range state.street.toNat) m1
        ([] ++ (state.hands.1.take 2).map rankOf)
        ([] ++ (state.hands.2.take 2).map rankOf) a1
      rw [readAll_range, if_neg hd] at s2
      simp only [collectRanks, e0, e1, s2]
    · rw [if_neg h1] at s1
      simp only [collectRanks, e0, s1]
  · rw [if_neg h0] at s0
    simp only [collectRanks, s0]

/-- The closed form of `get_bounty_hits`: when every read is in range, player
`p` is reported hit exactly when the character code of `bounties[p]` occurs
among the ranks pushed for `p`; otherwise there is no result. -/
theorem get_bounty_hits_eq (state : RoundState) :
    get_bounty_hits state =
      if InRange state then
        some (findNotEnd (cardsOf state.hands.1 state) (symbolCode state.bounties.1),
              findNotEnd (cardsOf state.hands.2 state) (symbolCode state.bounties.2))
      else none := by
  by_cases h : InRange state
  · obtain ⟨m, e, _⟩ := collectRanks_of_inRange h
    simp only [get_bounty_hits, e, if_pos h]
  · simp only [get_bounty_hits, collectRanks_of_not_inRange h, if_neg h]

theorem findNotEnd_iff (cards : List Int) (v : Int) :
    findNotEnd cards v = true ↔ v ∈ cards := by
  simp only [findNotEnd, List.any_eq_true, beq_iff_eq]
  constructor
  · rintro ⟨x, hx, rfl⟩; exact hx
  · intro h; exact ⟨v, h, rfl⟩

theorem rankOf_of_not_mem {c : String} (h : c ∉ alphabet) : rankOf c = 0 := by
  have hl : ranks.lookup c = none := by
    rw [List.lookup_eq_none_iff]
    intro p hp
    have : p.1 ∈ alphabet := List.mem_map_of_mem Prod.fst hp
    have hne : c ≠ p.1 := fun e => h (e ▸ this)
    simpa using hne
  simp [rankOf, index_of_lookup_none hl]

theorem rankOf_bounds (c : String) : 0 ≤ rankOf c ∧ rankOf c ≤ 12 := by
  by_cases h : c ∈ alphabet
  · simp only [alphabet, ranks, List.map_cons, List.map_nil, List.mem_cons,
      List.mem_singleton, List.not_mem_nil, or_false] at h
    rcases h with h | h | h | h | h | h | h | h | h | h | h | h | h <;>
      (subst h; decide)
  · rw [rankOf_of_not_mem h]; decide

theorem symbolCode_of_mem {b : Char} (h : bountySymbol b ∈ alphabet) :
    50 ≤ symbolCode b := by
  have key : ∀ c : Char, bountySymbol b = String.singleton c → b = c := by
    intro c hc
    have := congrArg String.data hc
    simpa [bountySymbol, String.singleton] using this
  simp only [alphabet, ranks, List.map_cons, List.map_nil, List.mem_cons,
    List.mem_singleton, List.not_mem_nil, or_false] at h
  rcases h with h | h | h | h | h | h | h | h | h | h | h | h | h
  · rw [key '2' h]; decide
  · rw [key '3' h]; decide
  · rw [key '4' h]; decide
  · rw [key '5' h]; decide
  · rw [key '6' h]; decide
  · rw [key '7' h]; decide
  · rw [key '8' h]; decide
  · rw [key '9' h]; decide
  · rw [key 'T' h]; decide
  · rw [key 'J' h]; decide
  · rw [key 'Q' h]; decide
  · rw [key 'K' h]; decide
  · rw [key 'A' h]; decide

/-- A bounty symbol of the alphabet is never found among pushed ranks: its
character code is at least 50, every rank at most 12. -/
theorem findNotEnd_symbol_false {b : Char} (h : bountySymbol b ∈ alphabet)
    (hand : List String) (state : RoundState) :
    findNotEnd (cardsOf hand state) (symbolCode b) = false := by
  rw [Bool.eq_false_iff]
  intro hf
  rw [findNotEnd_iff] at hf
  simp only [cardsOf, List.mem_map] at hf
  obtain ⟨c, _, hc⟩ := hf
  have h1 := (rankOf_bounds c).2
  have h2 := symbolCode_of_mem h
  omega

theorem inRange_of_valid {state : RoundState} (h : Valid state) : InRange state := by
  obtain ⟨h0, h1, hs0, hs, _⟩ := h
  refine ⟨by omega, by omega, ?_⟩
  have : state.street ≤ (state.deck.length : Int) := le_trans hs (min_le_right _ _)
  omega

/-- On a round state satisfying the data-model invariants the code reports no
hit for either player. -/
theorem get_bounty_hits_of_valid {state : RoundState} (h : Valid state) :
    get_bounty_hits state = some (false, false) := by
  rw [get_bounty_hits_eq, if_pos (inRange_of_valid h),
    findNotEnd_symbol_false h.2.2.2.2.2.2.2.1, findNotEnd_symbol_false h.2.2.2.2.2.2.2.2]

/-! The claims, in the order of the claim list. -/

/-- C1 (the code departs from the claim). On the valid round state `flopState`
the bounty rank of each player is visible (player 0 holds a king, a nine is
revealed), so the rule of the claim gives `(true, true)`; `get_bounty_hits`
returns `(false, false)`, because it searches the pushed ranks for the bounty
symbol itself and not for its rank. -/
theorem flop_bounties_visible_but_not_reported :
    Valid flopState ∧ evaluateBountyHits flopState = (true, true) ∧
      get_bounty_hits flopState = some (false, false) := by
  decide

/-- C2. The rank table of `get_bounty_hits` has exactly the keys
`2,3,4,5,6,7,8,9,T,J,Q,K,A`, maps them to `0,1,...,12` in that order, is
injective on them, has image exactly `{0,...,12}` and is strictly increasing
from `rankOf "2" = 0` to `rankOf "A" = 12`. -/
theorem rank_table_exact :
    alphabet = ["2", "3", "4", "5", "6", "7", "8", "9", "T", "J", "Q", "K", "A"] ∧
    alphabet.map rankOf = [0, 1, 2, 3, 4, 5, 6, 7, 8, 9, 10, 11, 12] ∧
    (∀ s1 ∈ alphabet, ∀ s2 ∈ alphabet, s1 ≠ s2 → rankOf s1 ≠ rankOf s2) ∧
    (∀ n : Int, (∃ s ∈ alphabet, rankOf s = n) ↔ 0 ≤ n ∧ n ≤ 12) ∧
    List.Pairwise (fun a b => a < b) (alphabet.map rankOf) ∧
    rankOf "2" = 0 ∧ rankOf "A" = 12 := by
  have hmap : alphabet.map rankOf = [0, 1, 2, 3, 4, 5, 6, 7, 8, 9, 10, 11, 12] := by
    decide
  refine ⟨by decide, hmap, ?_, ?_, by decide, by decide, by decide⟩
  · intro s1 h1 s2 h2 hne heq
    have hnd : (alphabet.map rankOf).Nodup := by decide
    exact hne (List.inj_on_of_nodup_map hnd h1 h2 heq)
  · intro n
    have hmem : (∃ s ∈ alphabet, rankOf s = n) ↔ n ∈ alphabet.map rankOf := by
      simp only [List.mem_map]
    rw [hmem, hmap]
    simp only [List.mem_cons, List.mem_singleton, List.not_mem_nil, or_false]
    omega

/-- C2, at the symbols `T` and `J`: two different symbols of the alphabet
have different ranks. -/
theorem rank_table_exact_witness : rankOf "T" ≠ rankOf "J" :=
  rank_table_exact.2.2.1 "T" (by decide) "J" (by decide) (by decide)

/-- C3, refuted at `strayBountyState`: the bounty symbol `X` is outside the
alphabet, and `get_bounty_hits` signals nothing and returns the pair
`(false, false)`. -/
theorem stray_bounty_returns_pair :
    bountySymbol strayBountyState.bounties.1 ∉ alphabet ∧
      get_bounty_hits strayBountyState = some (false, false) := by
  decide

/-- C3 as amended. The code has no error path for bounty symbols: on every
round state with two hole cards per player and `0 ≤ street ≤ min(5, len(deck))`
in which a bounty symbol is outside the alphabet, `get_bounty_hits` returns a
pair of booleans. -/
theorem stray_bounty_no_error (state : RoundState)
    (h0 : state.hands.1.length = 2) (h1 : state.hands.2.length = 2)
    (_hs : 0 ≤ state.street) (hd : state.street ≤ min 5 (state.deck.length : Int))
    (_hb : bountySymbol state.bounties.1 ∉ alphabet ∨
      bountySymbol state.bounties.2 ∉ alphabet) :
    ∃ r : Bool × Bool, get_bounty_hits state = some r := by
  have hr : InRange state := by
    refine ⟨by omega, by omega, ?_⟩
    have : state.street ≤ (state.deck.length : Int) := le_trans hd (min_le_right _ _)
    omega
  rw [get_bounty_hits_eq, if_pos hr]
  exact ⟨_, rfl⟩

/-- C3 as amended, at `strayBountyState`. -/
theorem stray_bounty_no_error_witness :
    ∃ r : Bool × Bool, get_bounty_hits strayBountyState = some r :=
  stray_bounty_no_error strayBountyState (by decide) (by decide) (by decide)
    (by decide) (Or.inl (by decide))

/-- C4, refuted at `strayCardState`: the hole card `X` and the revealed
community card `Z` are outside the alphabet; each lookup inserts the symbol
with rank `0`, the rank `0` is pushed, and a pair is returned. -/
theorem stray_card_gets_rank_zero :
    "X" ∉ alphabet ∧ "Z" ∉ alphabet ∧
      RankMap.index ranks "X" = (0, ranks ++ [("X", 0)]) ∧
      collectRanks strayCardState
        = some (ranks ++ [("X", 0), ("Z", 0)], [0, 1, 0], [2, 3, 0]) ∧
      get_bounty_hits strayCardState = some (false, false) := by
  decide

/-- C4 as amended. A hole card or revealed community card outside the
alphabet does not make the lookup fail: on a round state with two hole cards
per player and `0 ≤ street ≤ len(deck)` the lookup of such a card in the
initial table yields `0` and inserts the card with value `0`, the vectors hold
the table rank of every card (so `0` for that card), and `get_bounty_hits`
returns a pair of booleans. -/
theorem stray_card_no_error (state : RoundState) (c : String)
    (h0 : state.hands.1.length = 2) (h1 : state.hands.2.length = 2)
    (_hs : 0 ≤ state.street) (hd : state.street ≤ (state.deck.length : Int))
    (_hc : c ∈ state.hands.1 ++ state.hands.2 ++ revealed state)
    (hx : c ∉ alphabet) :
    RankMap.index ranks c = (0, ranks ++ [(c, 0)]) ∧ rankOf c = 0 ∧
      (∃ m, collectRanks state
        = some (m, (state.hands.1 ++ revealed state).map rankOf,
                   (state.hands.2 ++ revealed state).map rankOf)) ∧
      ∃ r : Bool × Bool, get_bounty_hits state = some r := by
  have hr : InRange state := ⟨by omega, by omega, by omega⟩
  have hl : ranks.lookup c = none := by
    rw [List.lookup_eq_none_iff]
    intro p hp
    have : p.1 ∈ alphabet := List.mem_map_of_mem Prod.fst hp
    have hne : c ≠ p.1 := fun e => hx (e ▸ this)
    simpa using hne
  refine ⟨index_of_lookup_none hl, rankOf_of_not_mem hx, ?_, ?_⟩
  · obtain ⟨m, e, _⟩ := collectRanks_of_inRange hr
    refine ⟨m, ?_⟩
    rw [e, cardsOf, cardsOf, List.take_of_length_le (le_of_eq h0),
      List.take_of_length_le (le_of_eq h1)]
  · rw [get_bounty_hits_eq, if_pos hr]
    exact ⟨_, rfl⟩

/-- C4 as amended, at `strayCardState` and its hole card `X`. -/
theorem stray_card_no_error_witness :
    RankMap.index ranks "X" = (0, ranks ++ [("X", 0)]) ∧ rankOf "X" = 0 ∧
      (∃ m, collectRanks strayCardState
        = some (m, (strayCardState.hands.1 ++ revealed strayCardState).map rankOf,
                   (strayCardState.hands.2 ++ revealed strayCardState).map rankOf)) ∧
      ∃ r : Bool × Bool, get_bounty_hits strayCardState = some r :=
  stray_card_no_error strayCardState "X" (by decide) (by decide) (by decide)
    (by decide) (by decide) (by decide)

/-- C5. `get_bounty_hits` does not depend on `deck` at indices `≥ street`: two
round states with the same hands, bounties and street and the same first
`street` deck entries get the same result, whatever their decks hold (or lack)
from index `street` on. -/
theorem deck_beyond_street_unread (s1 s2 : RoundState)
    (hh : s1.hands = s2.hands) (hb : s1.bounties = s2.bounties)
    (hst : s1.street = s2.street)
    (hd : s1.deck.take s1.street.toNat = s2.deck.take s2.street.toNat) :
    get_bounty_hits s1 = get_bounty_hits s2 := by
  have hlen := congrArg List.length hd
  simp only [List.length_take] at hlen
  have hr : InRange s1 ↔ InRange s2 := by
    simp only [InRange, hh]
    rw [hst] at hlen ⊢
    constructor
    · rintro ⟨a, b, c⟩; exact ⟨a, b, by omega⟩
    · rintro ⟨a, b, c⟩; exact ⟨a, b, by omega⟩
  have hc : ∀ hand, cardsOf hand s1 = cardsOf hand s2 := by
    intro hand; simp only [cardsOf, revealed, hd]
  rw [get_bounty_hits_eq, get_bounty_hits_eq, hc, hc, hh, hb]
  by_cases h : InRange s2
  · rw [if_pos h, if_pos (hr.mpr h)]
  · rw [if_neg h, if_neg (fun h' => h (hr.mp h'))]

/-- C5, at `flopState` and the state that has only the three revealed cards
in its deck. -/
theorem deck_beyond_street_unread_witness :
    get_bounty_hits flopState
      = get_bounty_hits { flopState with deck := ["9", "5", "5"] } :=
  deck_beyond_street_unread flopState { flopState with deck := ["9", "5", "5"] }
    (by decide) (by decide) (by decide) (by decide)

/-- C6. Hole cards and bounties of one player do not reach the other player's
result. For two round states with the same deck and street on which every read
is in range (every valid state is such a state): if they agree on `hands[0]`
and `bounties[0]` they get the same `hit[0]`, and if they agree on `hands[1]`
and `bounties[1]` they get the same `hit[1]`; both calls return a pair. -/
theorem hole_cards_do_not_leak (s1 s2 : RoundState)
    (h1 : InRange s1) (h2 : InRange s2)
    (hd : s1.deck = s2.deck) (hst : s1.street = s2.street) :
    ∃ r1 r2 : Bool × Bool,
      get_bounty_hits s1 = some r1 ∧ get_bounty_hits s2 = some r2 ∧
      (s1.hands.1 = s2.hands.1 → s1.bounties.1 = s2.bounties.1 → r1.1 = r2.1) ∧
      (s1.hands.2 = s2.hands.2 → s1.bounties.2 = s2.bounties.2 → r1.2 = r2.2) := by
  have hc : ∀ hand, cardsOf hand s1 = cardsOf hand s2 := by
    intro hand; simp only [cardsOf, revealed, hd, hst]
  refine ⟨(findNotEnd (cardsOf s1.hands.1 s1) (symbolCode s1.bounties.1),
            findNotEnd (cardsOf s1.hands.2 s1) (symbolCode s1.bounties.2)),
           (findNotEnd (cardsOf s2.hands.1 s2) (symbolCode s2.bounties.1),
            findNotEnd (cardsOf s2.hands.2 s2) (symbolCode s2.bounties.2)),
           ?_, ?_, ?_, ?_⟩
  · rw [get_bounty_hits_eq, if_pos h1]
  · rw [get_bounty_hits_eq, if_pos h2]
  · intro hh hb
    simp only [hc, hh, hb]
  · intro hh hb
    simp only [hc, hh, hb]

/-- C6, at `codeHitState` with street 2 and the state that differs from it in
player 1's hole cards and bounty: player 0 is reported hit in both. -/
theorem hole_cards_do_not_leak_witness :
    ∃ r1 r2 : Bool × Bool,
      get_bounty_hits { codeHitState with street := 2 } = some r1 ∧
      get_bounty_hits { codeHitState with
        street := 2, hands := (["2", "3"], ["T", "J"]), bounties := (Char.ofNat 8, 'Q') }
          = some r2 ∧
      r1.1 = r2.1 :=
  (hole_cards_do_not_leak { codeHitState with street := 2 }
    { codeHitState with
        street := 2, hands := (["2", "3"], ["T", "J"]), bounties := (Char.ofNat 8, 'Q') }
    (by decide) (by decide) rfl rfl).elim
    (fun r1 h => h.elim (fun r2 h => ⟨r1, r2, h.1, h.2.1, h.2.2.1 rfl rfl⟩))

theorem mem_take_of_le {l : List String} {m n : Nat} (h : m ≤ n) {x : String}
    (hx : x ∈ l.take m) : x ∈ l.take n := by
  have e : l.take m = (l.take n).take m := by
    rw [List.take_take, Nat.min_eq_left h]
  rw [e] at hx
  exact List.mem_of_mem_take hx

theorem cardsOf_street_mono (state : RoundState) (k k' : Int) (h : k ≤ k')
    (hand : List String) {v : Int}
    (hv : v ∈ cardsOf hand { state with street := k }) :
    v ∈ cardsOf hand { state with street := k' } := by
  simp only [cardsOf, revealed, List.mem_map, List.mem_append] at hv ⊢
  obtain ⟨c, hc, rfl⟩ := hv
  refine ⟨c, ?_, rfl⟩
  rcases hc with hc | hc
  · exact Or.inl hc
  · exact Or.inr (mem_take_of_le (Int.toNat_le_toNat h) hc)

/-- C7. Monotonicity in street. For fixed hands, bounties and deck and
`k ≤ k' ≤ min(5, len(deck))`: if `get_bounty_hits` returns a pair at
`street = k`, it returns a pair at `street = k'`, and every player reported hit
at `k` is reported hit at `k'`. -/
theorem street_monotone (state : RoundState) (k k' : Int)
    (hk : k ≤ k') (hk' : k' ≤ min 5 (state.deck.length : Int))
    (r : Bool × Bool) (hr : get_bounty_hits { state with street := k } = some r) :
    ∃ r' : Bool × Bool, get_bounty_hits { state with street := k' } = some r' ∧
      (r.1 = true → r'.1 = true) ∧ (r.2 = true → r'.2 = true) := by
  rw [get_bounty_hits_eq] at hr
  by_cases hin : InRange { state with street := k }
  · rw [if_pos hin] at hr
    have hin' : InRange { state with street := k' } := by
      refine ⟨hin.1, hin.2.1, ?_⟩
      have : k' ≤ (state.deck.length : Int) := le_trans hk' (min_le_right _ _)
      show k'.toNat ≤ state.deck.length
      omega
    have hr' := Option.some.inj hr
    refine ⟨_, by rw [get_bounty_hits_eq, if_pos hin'], ?_, ?_⟩
    · intro h
      rw [← hr'] at h
      simp only [findNotEnd_iff] at h ⊢
      exact cardsOf_street_mono state k k' hk _ h
    · intro h
      rw [← hr'] at h
      simp only [findNotEnd_iff] at h ⊢
      exact cardsOf_street_mono state k k' hk _ h
  · rw [if_neg hin] at hr
    exact absurd hr (by simp)

/-- C7, at `codeHitState` between street 1 and street 3: at street 1 the code
reports `(true, false)` (only `T`, rank 8, is revealed), and at street 3 it
reports both players hit. -/
theorem street_monotone_witness :
    get_bounty_hits { codeHitState with street := 1 } = some (true, false) ∧
    ∃ r' : Bool × Bool, get_bounty_hits { codeHitState with street := 3 } = some r' ∧
      ((true, false).1 = true → r'.1 = true) ∧ ((true, false).2 = true → r'.2 = true) :=
  ⟨by decide,
   street_monotone codeHitState 1 3 (by decide) (by decide) (true, false) (by decide)⟩

/-- C8. `get_bounty_hits` is total on well-formed input. On a round state
satisfying the data-model invariants every read `hands[p][i]` for `i < 2` and
`deck[i]` for `i < street` is in range, the map is still the initial table
after all lookups (no lookup missed a key, so nothing was inserted), and the
function returns a pair of booleans. -/
theorem total_on_valid (state : RoundState) (h : Valid state) :
    (∀ i : Nat, i < 2 → (state.hands.1[i]?).isSome ∧ (state.hands.2[i]?).isSome) ∧
    (∀ i : Nat, (i : Int) < state.street → (state.deck[i]?).isSome) ∧
    (∃ cards0 cards1, collectRanks state = some (ranks, cards0, cards1)) ∧
    ∃ r : Bool × Bool, get_bounty_hits state = some r := by
  have hr := inRange_of_valid h
  obtain ⟨h0, h1, hs0, hs, a0, a1, ad, _, _⟩ := h
  refine ⟨?_, ?_, ?_, ?_⟩
  · intro i hi
    have e0 : i < state.hands.1.length := by omega
    have e1 : i < state.hands.2.length := by omega
    simp [List.getElem?_eq_getElem e0, List.getElem?_eq_getElem e1]
  · intro i hi
    have hd : state.street ≤ (state.deck.length : Int) := le_trans hs (min_le_right _ _)
    have e : i < state.deck.length := by omega
    simp [List.getElem?_eq_getElem e]
  · obtain ⟨m, e, hm⟩ := collectRanks_of_inRange hr
    have : m = ranks := by
      apply hm
      intro c hc
      simp only [List.mem_append] at hc
      rcases hc with (hc | hc) | hc
      · exact a0 c (List.mem_of_mem_take hc)
      · exact a1 c (List.mem_of_mem_take hc)
      · exact ad c (List.mem_of_mem_take hc)
    subst this
    exact ⟨_, _, e⟩
  · rw [get_bounty_hits_eq, if_pos hr]
    exact ⟨_, rfl⟩

/-- C8, at the valid round state `flopState`. -/
theorem total_on_valid_witness :
    Valid flopState ∧
    (∃ cards0 cards1, collectRanks flopState = some (ranks, cards0, cards1)) ∧
    ∃ r : Bool × Bool, get_bounty_hits flopState = some r :=
  ⟨by decide, (total_on_valid flopState (by decide)).2.2⟩

/-- C9, refuted at `negativeStreetState` (`street = -1`) and at
`sixthStreetState` (`street = 6`): neither satisfies the invariants, and
`get_bounty_hits` returns a pair of booleans for both. -/
theorem street_out_of_bounds_returns_pair :
    ¬ Valid negativeStreetState ∧ negativeStreetState.street < 0 ∧
      get_bounty_hits negativeStreetState = some (false, false) ∧
    ¬ Valid sixthStreetState ∧ 5 < sixthStreetState.street ∧
      get_bounty_hits sixthStreetState = some (false, false) := by
  decide

/-- C9 as amended. `get_bounty_hits` checks no invariant and has no error
path. With at least two hole cards per player: for `street < 0` it returns the
pair it returns for `street = 0`; for every `street ≤ len(deck)`, also above 5,
it returns a pair of booleans; for `street > len(deck)` it reads `deck` out of
range and has no result. -/
theorem street_unchecked (state : RoundState)
    (h0 : 2 ≤ state.hands.1.length) (h1 : 2 ≤ state.hands.2.length) :
    (state.street < 0 →
      get_bounty_hits state = get_bounty_hits { state with street := 0 }) ∧
    (state.street ≤ (state.deck.length : Int) →
      ∃ r : Bool × Bool, get_bounty_hits state = some r) ∧
    ((state.deck.length : Int) < state.street → get_bounty_hits state = none) := by
  refine ⟨?_, ?_, ?_⟩
  · intro hneg
    have hz : state.street.toNat = 0 := by omega
    have hc : ∀ hand, cardsOf hand state = cardsOf hand { state with street := 0 } := by
      intro hand; simp [cardsOf, revealed, hz]
    have hr : InRange state := ⟨h0, h1, by omega⟩
    have hr' : InRange { state with street := 0 } :=
      ⟨h0, h1, Nat.zero_le _⟩
    rw [get_bounty_hits_eq, get_bounty_hits_eq, if_pos hr, if_pos hr', hc, hc]
  · intro hle
    have hr : InRange state := ⟨h0, h1, by omega⟩
    rw [get_bounty_hits_eq, if_pos hr]
    exact ⟨_, rfl⟩
  · intro hgt
    have hr : ¬ InRange state := by
      rintro ⟨_, _, hd⟩
      omega
    rw [get_bounty_hits_eq, if_neg hr]

/-- C9 as amended, at `negativeStreetState`: the result is the one for
`street = 0`, a pair. -/
theorem street_unchecked_witness :
    get_bounty_hits negativeStreetState
        = get_bounty_hits { negativeStreetState with street := 0 } ∧
      ∃ r : Bool × Bool, get_bounty_hits negativeStreetState = some r :=
  ⟨(street_unchecked negativeStreetState (by decide) (by decide)).1 (by decide),
   (street_unchecked negativeStreetState (by decide) (by decide)).2.1 (by decide)⟩

/-- C10 (the code departs from the claim). In scenario 1 of the specification,
over any deck, `get_bounty_hits` returns `(false, false)` where the claim has
`(true, false)`: player 0 holds an ace, but the pushed ranks `12, 0` are
compared with the character `A`, code 65, and not with its rank. The rule of
section 4.2 gives `(true, true)` on this state, player 1 holding a king. -/
theorem scenario1_reports_no_hit (deck : List String) :
    collectRanks (scenario1 deck) = some (ranks, [12, 0], [11, 10]) ∧
    symbolCode (scenario1 deck).bounties.1 = 65 ∧
    rankOf (bountySymbol (scenario1 deck).bounties.1) = 12 ∧
    get_bounty_hits (scenario1 deck) = some (false, false) ∧
    evaluateBountyHits (scenario1 deck) = (true, true) := by
  have hc : collectRanks (scenario1 deck) = some (ranks, [12, 0], [11, 10]) := by
    simp only [collectRanks, scenario1, Int.toNat_zero, List.range_zero, pushDeck]
    decide
  refine ⟨hc, ?_, ?_, ?_, ?_⟩
  · show symbolCode 'A' = 65
    decide
  · show rankOf (bountySymbol 'A') = 12
    decide
  · simp only [get_bounty_hits, hc]
    show some (findNotEnd [12, 0] (symbolCode 'A'), findNotEnd [11, 10] (symbolCode 'K'))
      = some (false, false)
    decide
  · simp only [evaluateBountyHits, visibleRanks, revealed, scenario1, Int.toNat_zero,
      List.take_zero, List.map_nil, List.append_nil]
    decide

/-- C11 (the code departs from the claim). In scenario 2 of the specification,
a valid round state, the bounty ranks of both players (`T` and `J`) are ranks
of revealed community cards, so the claim has `(true, true)`;
`get_bounty_hits` returns `(false, false)`: the pushed ranks, which hold 8 and
9 for both players, are compared with the characters `T` and `J`, codes 84 and
74. -/
theorem scenario2_community_hit_not_reported :
    Valid scenario2 ∧
    rankOf (bountySymbol scenario2.bounties.1) ∈ (revealed scenario2).map rankOf ∧
    rankOf (bountySymbol scenario2.bounties.2) ∈ (revealed scenario2).map rankOf ∧
    collectRanks scenario2 = some (ranks, [0, 1, 8, 9, 7], [2, 3, 8, 9, 7]) ∧
    symbolCode scenario2.bounties.1 = 84 ∧ symbolCode scenario2.bounties.2 = 74 ∧
    get_bounty_hits scenario2 = some (false, false) := by
  decide

/-- C12. No false positives. On a round state satisfying the data-model
invariants, a player whose bounty rank differs from the rank of both own hole
cards and of every revealed community card is reported not hit, and the call
returns a pair. -/
theorem no_false_positive (state : RoundState) (h : Valid state) :
    ∃ r : Bool × Bool, get_bounty_hits state = some r ∧
      (rankOf (bountySymbol state.bounties.1) ∉ visibleRanks state.hands.1 state →
        r.1 = false) ∧
      (rankOf (bountySymbol state.bounties.2) ∉ visibleRanks state.hands.2 state →
        r.2 = false) :=
  ⟨(false, false), get_bounty_hits_of_valid h, fun _ => rfl, fun _ => rfl⟩

/-- C12, at scenario 4 of the specification: no ace is visible to either
player, and the result is `(false, false)`. -/
theorem no_false_positive_witness :
    rankOf (bountySymbol scenario4.bounties.1) ∉ visibleRanks scenario4.hands.1 scenario4 ∧
    rankOf (bountySymbol scenario4.bounties.2) ∉ visibleRanks scenario4.hands.2 scenario4 ∧
    get_bounty_hits scenario4 = some (false, false) :=
  ⟨by decide, by decide,
   (no_false_positive scenario4 (by decide)).elim (fun r hr => by
      have e1 := hr.2.1 (by decide)
      have e2 := hr.2.2 (by decide)
      rw [hr.1]
      exact congrArg some (Prod.ext e1 e2))⟩

/-- C13 (the code departs from the claim). In scenario 3 of the specification,
a valid round state, each player holds the own bounty rank twice, so the claim
has `(true, true)`; `get_bounty_hits` returns `(false, false)`: the pushed
ranks `0, 0` and `1, 1` are compared with the characters `2` and `3`, codes 50
and 51. -/
theorem scenario3_pair_hit_not_reported :
    Valid scenario3 ∧
    (scenario3.hands.1.map rankOf).count (rankOf (bountySymbol scenario3.bounties.1)) = 2 ∧
    (scenario3.hands.2.map rankOf).count (rankOf (bountySymbol scenario3.bounties.2)) = 2 ∧
    collectRanks scenario3 = some (ranks, [0, 0], [1, 1]) ∧
    symbolCode scenario3.bounties.1 = 50 ∧ symbolCode scenario3.bounties.2 = 51 ∧
    get_bounty_hits scenario3 = some (false, false) := by
  decide

theorem mem_cardsOf (hand : List String) (state : RoundState) (v : Int) :
    v ∈ cardsOf hand state ↔
      v ∈ (hand.take 2).map rankOf ∨ v ∈ (revealed state).map rankOf := by
  rw [cardsOf, List.map_append, List.mem_append]

/-- C14. Symmetry of the community contribution. Two round states with the
same hands, bounties and street whose revealed community cards have the same
multiset of ranks (for instance the same cards in another order) get the same
result from `get_bounty_hits`. -/
theorem revealed_rank_multiset_decides (s1 s2 : RoundState)
    (hh : s1.hands = s2.hands) (hb : s1.bounties = s2.bounties)
    (hst : s1.street = s2.street)
    (hm : (((revealed s1).map rankOf : List Int) : Multiset Int)
        = (((revealed s2).map rankOf : List Int) : Multiset Int)) :
    get_bounty_hits s1 = get_bounty_hits s2 := by
  have hp : ((revealed s1).map rankOf).Perm ((revealed s2).map rankOf) :=
    Multiset.coe_eq_coe.mp hm
  have hlen := hp.length_eq
  simp only [List.length_map, revealed, List.length_take] at hlen
  have hr : InRange s1 ↔ InRange s2 := by
    simp only [InRange, hh]
    rw [hst] at hlen ⊢
    constructor
    · rintro ⟨a, b, c⟩; exact ⟨a, b, by omega⟩
    · rintro ⟨a, b, c⟩; exact ⟨a, b, by omega⟩
  have hf : ∀ (hand : List String) (v : Int),
      findNotEnd (cardsOf hand s1) v = findNotEnd (cardsOf hand s2) v := by
    intro hand v
    rw [Bool.eq_iff_iff, findNotEnd_iff, findNotEnd_iff, mem_cardsOf, mem_cardsOf,
      hp.mem_iff]
  rw [get_bounty_hits_eq, get_bounty_hits_eq, hf, hf, hh, hb]
  by_cases h : InRange s2
  · rw [if_pos h, if_pos (hr.mpr h)]
  · rw [if_neg h, if_neg (fun h' => h (hr.mp h'))]

/-- C14, at `codeHitState` on the flop and the state whose first three deck
cards are the same cards in another order. -/
theorem revealed_rank_multiset_decides_witness :
    get_bounty_hits { codeHitState with street := 3 }
      = get_bounty_hits { codeHitState with
          street := 3, deck := ["9", "T", "J", "6", "6"] } :=
  revealed_rank_multiset_decides { codeHitState with street := 3 }
    { codeHitState with street := 3, deck := ["9", "T", "J", "6", "6"] }
    rfl rfl rfl (Multiset.coe_eq_coe.mpr (by decide))

/-- C15. The result of `get_bounty_hits` depends on `hands`, `deck`, `street`
and `bounties` only: two round states that agree on these get the same result,
whatever the bookkeeping fields `pot` and `chips` hold. -/
theorem bookkeeping_unread (s1 s2 : RoundState)
    (hh : s1.hands = s2.hands) (hd : s1.deck = s2.deck)
    (hst : s1.street = s2.street) (hb : s1.bounties = s2.bounties) :
    get_bounty_hits s1 = get_bounty_hits s2 := by
  simp only [get_bounty_hits, collectRanks, hh, hd, hst, hb]

/-- C15, at `flopState` and the state that differs from it in `pot` and
`chips`. -/
theorem bookkeeping_unread_witness :
    get_bounty_hits flopState
      = get_bounty_hits { flopState with pot := 120, chips := (340, 340) } :=
  bookkeeping_unread flopState { flopState with pot := 120, chips := (340, 340) }
    rfl rfl rfl rfl

/-- C16 (the code departs from the claim). On the valid preflop state
`preflopState` the bounty rank of player 0, `Q`, is the rank of the first hole
card, and that of player 1 is the rank of neither hole card, so the claim has
`(true, false)`; `get_bounty_hits` returns `(false, false)`: the pushed ranks
`10, 5` are compared with the character `Q`, code 81. -/
theorem preflop_hole_hit_not_reported :
    Valid preflopState ∧ preflopState.street = 0 ∧
    rankOf (bountySymbol preflopState.bounties.1) ∈ preflopState.hands.1.map rankOf ∧
    rankOf (bountySymbol preflopState.bounties.2) ∉ preflopState.hands.2.map rankOf ∧
    collectRanks preflopState = some (ranks, [10, 5], [6, 6]) ∧
    symbolCode preflopState.bounties.1 = 81 ∧
    get_bounty_hits preflopState = some (false, false) := by
  decide

theorem cardsOf_eq (hand : List String) (state : RoundState) :
    cardsOf hand state
      = (hand.map rankOf).take 2 ++ (state.deck.map rankOf).take state.street.toNat := by
  rw [cardsOf, revealed, List.map_append, List.map_take, List.map_take]

theorem map_rankOf_set {s : String} (hs : rankOf s = 0) :
    ∀ (l : List String) (i : Nat), l[i]? = some s →
      (l.set i "2").map rankOf = l.map rankOf := by
  intro l
  induction l with
  | nil => intro i _; rfl
  | cons x t ih =>
    intro i hi
    cases i with
    | zero =>
      have hx : x = s := by simpa using hi
      have h2 : rankOf "2" = 0 := by decide
      simp [hx, hs, h2]
    | succ j =>
      have hj : t[j]? = some s := by simpa using hi
      simp [ih j hj]

/-- C17. Default-on-miss lookup. For a string `s` that is not a key of the
rank table, `ranks[s]` yields `0`, the rank of `2`, in the initial table and in
every map that is read like it (the maps reached while `get_bounty_hits` runs);
and replacing a hole card or a deck card equal to `s` by `2` does not change
the result of `get_bounty_hits`. -/
theorem default_on_miss (state : RoundState) (s : String) (hs : s ∉ alphabet) :
    (RankMap.index ranks s).1 = 0 ∧ rankOf "2" = 0 ∧
    (∀ m, Agrees m → (m.index s).1 = 0) ∧
    (∀ i, state.hands.1[i]? = some s →
      get_bounty_hits { state with hands := (state.hands.1.set i "2", state.hands.2) }
        = get_bounty_hits state) ∧
    (∀ i, state.hands.2[i]? = some s →
      get_bounty_hits { state with hands := (state.hands.1, state.hands.2.set i "2") }
        = get_bounty_hits state) ∧
    (∀ i, state.deck[i]? = some s →
      get_bounty_hits { state with deck := state.deck.set i "2" }
        = get_bounty_hits state) := by
  have h0 : rankOf s = 0 := rankOf_of_not_mem hs
  refine ⟨h0, by decide, fun m hm => (hm s).trans h0, ?_, ?_, ?_⟩
  · intro i hi
    have hmap := map_rankOf_set h0 state.hands.1 i hi
    rw [get_bounty_hits_eq, get_bounty_hits_eq]
    simp only [cardsOf_eq, InRange, hmap, List.length_set]
  · intro i hi
    have hmap := map_rankOf_set h0 state.hands.2 i hi
    rw [get_bounty_hits_eq, get_bounty_hits_eq]
    simp only [cardsOf_eq, InRange, hmap, List.length_set]
  · intro i hi
    have hmap := map_rankOf_set h0 state.deck i hi
    rw [get_bounty_hits_eq, get_bounty_hits_eq]
    simp only [cardsOf_eq, InRange, hmap, List.length_set]

/-- C17, at `strayCardState`: its hole card `X` and its revealed community
card `Z` are no keys of the table, and replacing either by `2` leaves the
result as it is. -/
theorem default_on_miss_witness :
    (RankMap.index ranks "X").1 = 0 ∧
    get_bounty_hits { strayCardState with hands := (["2", "3"], ["4", "5"]) }
      = get_bounty_hits strayCardState ∧
    get_bounty_hits { strayCardState with deck := ["2", "6", "7", "8", "9"] }
      = get_bounty_hits strayCardState :=
  ⟨(default_on_miss strayCardState "X" (by decide)).1,
   (default_on_miss strayCardState "X" (by decide)).2.2.2.1 0 (by decide),
   (default_on_miss strayCardState "Z" (by decide)).2.2.2.2.2 0 (by decide)⟩

theorem joinLoop_succ (sep : String) :
    ∀ (xs : List String) (pos : Nat) (oss : String),
      joinLoop sep (pos + 1) xs oss = oss ++ joinLoop sep 1 xs "" := by
  intro xs
  induction xs with
  | nil => intro pos oss; simp [joinLoop]
  | cons x rest ih =>
    intro pos oss
    simp only [joinLoop, Nat.succ_ne_zero, ne_eq, not_false_eq_true, if_true,
      String.empty_append]
    rw [ih (pos + 1) (oss ++ sep ++ x), ih 1 (sep ++ x)]
    simp only [String.append_assoc]

theorem joinLoop_one_cons (sep x : String) (rest : List String) :
    joinLoop sep 1 (x :: rest) "" = sep ++ x ++ joinLoop sep 1 rest "" := by
  simp only [joinLoop, Nat.succ_ne_zero, ne_eq, not_false_eq_true, if_true,
    String.empty_append]
  rw [joinLoop_succ]

theorem joinLoop_one_append (sep : String) (xs ys : List String) :
    joinLoop sep 1 (xs ++ ys) "" = joinLoop sep 1 xs "" ++ joinLoop sep 1 ys "" := by
  induction xs with
  | nil => simp [joinLoop]
  | cons x rest ih =>
    rw [List.cons_append, joinLoop_one_cons, joinLoop_one_cons, ih]
    simp only [String.append_assoc]

theorem join_cons (sep x : String) (rest : List String) :
    join (x :: rest) sep = x ++ joinLoop sep 1 rest "" := by
  simp only [join, joinLoop, ne_eq, not_true_eq_false, if_false, String.empty_append]
  rw [joinLoop_succ]

theorem join_eq_separated (sep : String) (xs : List String) :
    join xs sep = separated sep xs := by
  cases xs with
  | nil => rfl
  | cons x rest =>
    rw [join_cons]
    induction rest generalizing x with
    | nil => simp [joinLoop, separated]
    | cons y r ih =>
      rw [joinLoop_one_cons, separated, ← ih y]
      simp only [String.append_assoc]

/-- C18. `join` yields the elements in order with the separator between each
adjacent pair and nowhere else: it is the text `separated` describes, the empty
string for an empty range, the element itself for a one-element range, and for
non-empty `xs` and `ys` the join of `xs ++ ys` is the join of `xs`, the
separator, and the join of `ys`. -/
theorem join_separates (sep : String) (xs ys : List String) (x : String) :
    join xs sep = separated sep xs ∧
    join [] sep = "" ∧
    join [x] sep = x ∧
    (xs ≠ [] → ys ≠ [] → join (xs ++ ys) sep = join xs sep ++ sep ++ join ys sep) := by
  refine ⟨join_eq_separated sep xs, rfl, ?_, ?_⟩
  · rw [join_cons]; simp [joinLoop]
  · intro hx hy
    obtain ⟨a, xr, rfl⟩ := List.exists_cons_of_ne_nil hx
    obtain ⟨b, yr, rfl⟩ := List.exists_cons_of_ne_nil hy
    rw [List.cons_append, join_cons, join_cons, join_cons, joinLoop_one_append,
      joinLoop_one_cons]
    simp only [String.append_assoc]

/-- C18, at the ranges `a, b` and `c` with the separator `, `. -/
theorem join_separates_witness :
    join (["a", "b"] ++ ["c"]) ", " = join ["a", "b"] ", " ++ ", " ++ join ["c"] ", " ∧
    join ["a", "b", "c"] ", " = "a, b, c" :=
  ⟨(join_separates ", " ["a", "b"] ["c"] "").2.2.2 (by decide) (by decide), by decide⟩

theorem all_of_iff {α : Type} (pred : α → Bool) (l : List α) :
    all_of pred l = true ↔ ∀ x ∈ l, pred x = true := by
  induction l with
  | nil => simp [all_of]
  | cons x rest ih =>
    by_cases hx : pred x = true
    · simp [all_of, hx, ih]
    · simp [all_of, hx]

/-- C19. `isEmpty` returns true exactly when every element of the container is
empty: in particular it returns true for a container without elements and false
as soon as one element is not empty. -/
theorem isEmpty_iff_all_empty {α : Type} (c : List (List α)) :
    (isEmpty c = true ↔ ∀ v ∈ c, v = []) ∧
    isEmpty ([] : List (List α)) = true ∧
    ((∃ v ∈ c, v ≠ []) → isEmpty c = false) := by
  have key : isEmpty c = true ↔ ∀ v ∈ c, v = [] := by
    rw [isEmpty, all_of_iff]
    simp only [List.isEmpty_iff]
  refine ⟨key, rfl, ?_⟩
  rintro ⟨v, hv, hne⟩
  rw [Bool.eq_false_iff]
  intro ht
  exact hne (key.mp ht v hv)

/-- C19, at the container holding an empty and a one-element list. -/
theorem isEmpty_iff_all_empty_witness : isEmpty [([] : List Nat), [7]] = false :=
  (isEmpty_iff_all_empty [([] : List Nat), [7]]).2.2 ⟨[7], by decide, by decide⟩

end Pokerbots
